import Mathlib

/-!
Shallow embedding of the WqyJh/errors Go package (a pkg/errors fork with a
configurable-skip constructor API) and proofs about its specification.

Sources embedded: src/errors.go (node types, Error, Format, ErrorLine, Cause,
withDetails, Details), src/custom.go (the errorsApi constructors with their
nil guards), src/lines.go (Lines), src/options.go (Config).

Parts of the repository that are not under src/ (the stack capturer stack.go
and the go113 Unwrap helper) and host standard-library routines (fmt.Sprintf,
strconv quoting, the fmt fallbacks for values without a Formatter) are
modelled explicitly; each such definition carries a doc comment saying so.
-/

namespace Errors

/-- Render configuration from src/options.go: three process-wide separator
strings consulted at render time.  Render functions take it as an explicit
parameter. -/
structure Config where
  FuncSep : String
  StackSep : String
  MsgSep : String
deriving DecidableEq, Repr

/-- Default configuration value (globalOptions in src/options.go). -/
def globalOptions : Config := { FuncSep := "\t", StackSep := "\n", MsgSep := " : " }

/-- Modelled from the spec: one captured call-site descriptor, already
resolved to (function name, file, line).  The capture routine (stack.go) is
not under src/; the spec says a frame renders as functionName, the function
separator, then file:line. -/
structure Frame where
  fn : String
  file : String
  line : Nat
deriving DecidableEq, Repr

/-- A captured stack is an ordered sequence of frames.  Capture itself
(callers with a skip count) is abstracted: constructors below take the
captured stack as a parameter. -/
def Stack : Type := List Frame

instance : DecidableEq Stack := inferInstanceAs (DecidableEq (List Frame))

instance : Repr Stack := inferInstanceAs (Repr (List Frame))

/-- Opaque detail / format-argument values.  The package stores details as
opaque any values; for formatting arguments the model distinguishes strings
and integers. -/
inductive GoVal where
  | str (s : String)
  | int (n : Int)
deriving DecidableEq, Repr

/-- The universe of Go error values as seen by this package: nil, the four
node variants of src/errors.go, and opaque external errors (any error type
from outside the package, exposing only Error()).  The cause field of a node
is again an error value; nilE models the Go nil error, so a hand-built node
with a nil cause is representable, exactly as the Go structs permit. -/
inductive Err where
  | nilE
  | fundamental (msg : String) (stack : Stack)
  | withStack (cause : Err) (msg : String) (stack : Stack)
  | withMessage (cause : Err) (msg : String)
  | withDetails (cause : Err) (details : List GoVal)
  | external (msg : String)
deriving DecidableEq, Repr

/-- Error() for every error value.  Returns none when the Go call would
panic: calling Error() on a nil error dereferences nil, and
withDetails.Error() delegates to its cause unconditionally (src/errors.go:
return w.cause.Error()).  withStack embeds withMessage, so both share
withMessage.Error(): nil cause yields the message, empty message yields the
cause text, otherwise msg ++ ": " ++ cause text. -/
def errMsg : Err → Option String
  | .nilE => none
  | .fundamental m _ => some m
  | .withStack .nilE m _ => some m
  | .withStack c m _ =>
      if m = "" then errMsg c else (errMsg c).map (fun s => m ++ ": " ++ s)
  | .withMessage .nilE m => some m
  | .withMessage c m =>
      if m = "" then errMsg c else (errMsg c).map (fun s => m ++ ": " ++ s)
  | .withDetails c _ => errMsg c
  | .external m => some m

/-- errorsApi.New (src/custom.go): a fundamental node with the supplied
message and a freshly captured stack. -/
def New (message : String) (st : Stack) : Err :=
  .fundamental message st

/-- Modelled from the host standard library: fmt.Sprintf restricted to
verbatim text and single-character argument verbs.  Every argument verb
consumes one argument and renders it; a verb with no argument left renders
the MISSING marker; a doubled percent renders one percent sign.  The claims
use this function opaquely. -/
def sprintfAux : List Char → List GoVal → String
  | [], _ => ""
  | '%' :: '%' :: rest, args => "%" ++ sprintfAux rest args
  | '%' :: v :: rest, [] => "%!" ++ String.singleton v ++ "(MISSING)" ++ sprintfAux rest []
  | '%' :: _ :: rest, a :: args =>
      (match a with
       | .str s => s
       | .int n => toString n) ++ sprintfAux rest args
  | c :: rest, args => String.singleton c ++ sprintfAux rest args

/-- Modelled from the host standard library: fmt.Sprintf. -/
def sprintf (format : String) (args : List GoVal) : String :=
  sprintfAux format.toList args

/-- errorsApi.Errorf (src/custom.go): a fundamental node whose message is the
formatted string. -/
def Errorf (format : String) (args : List GoVal) (st : Stack) : Err :=
  .fundamental (sprintf format args) st

/-- errorsApi.WithStack (src/custom.go): nil in, nil out; otherwise a
withStack node with empty own message. -/
def WithStack (err : Err) (st : Stack) : Err :=
  match err with
  | .nilE => .nilE
  | _ => .withStack err "" st

/-- errorsApi.Wrap (src/custom.go): nil in, nil out; otherwise a withStack
node carrying the message. -/
def Wrap (err : Err) (message : String) (st : Stack) : Err :=
  match err with
  | .nilE => .nilE
  | _ => .withStack err message st

/-- errorsApi.Wrapf (src/custom.go): like Wrap with the formatted message. -/
def Wrapf (err : Err) (format : String) (args : List GoVal) (st : Stack) : Err :=
  match err with
  | .nilE => .nilE
  | _ => .withStack err (sprintf format args) st

/-- errorsApi.WithMessage (src/custom.go): nil in, nil out; otherwise a
withMessage node (no stack). -/
def WithMessage (err : Err) (message : String) : Err :=
  match err with
  | .nilE => .nilE
  | _ => .withMessage err message

/-- errorsApi.WithMessagef (src/custom.go): like WithMessage with the
formatted message. -/
def WithMessagef (err : Err) (format : String) (args : List GoVal) : Err :=
  match err with
  | .nilE => .nilE
  | _ => .withMessage err (sprintf format args)

/-- errorsApi.WithDetails (src/custom.go): nil in, nil out; otherwise a
withDetails node carrying the ordered detail values. -/
def WithDetails (err : Err) (details : List GoVal) : Err :=
  match err with
  | .nilE => .nilE
  | _ => .withDetails err details

/-- errorsApi.Details (src/custom.go): a type assertion to withDetails; on
success the stored slice with true, otherwise (nil, false).  The none result
models the Go nil slice. -/
def Details (err : Err) : Option (List GoVal) × Bool :=
  match err with
  | .withDetails _ ds => (some ds, true)
  | _ => (none, false)

/-- Cause (src/errors.go): repeatedly follow the Cause() accessor while the
current value is non-nil and implements causer (withStack via its embedded
withMessage, withMessage, withDetails); stop at the first non-causer
(fundamental or external) or at nil. -/
def Cause : Err → Err
  | .nilE => .nilE
  | .withStack c _ _ => Cause c
  | .withMessage c _ => Cause c
  | .withDetails c _ => Cause c
  | .fundamental m st => .fundamental m st
  | .external m => .external m

/-- C1: For every wrap-family constructor (WithStack, Wrap, Wrapf,
WithMessage, WithMessagef, WithDetails), a nil cause yields nil and a
non-nil cause yields a non-nil node. -/
theorem wrap_family_nil_propagation (e : Err) (m f : String)
    (args ds : List GoVal) (st : Stack) (h : e ≠ Err.nilE) :
    (WithStack Err.nilE st = Err.nilE ∧ Wrap Err.nilE m st = Err.nilE ∧
     Wrapf Err.nilE f args st = Err.nilE ∧ WithMessage Err.nilE m = Err.nilE ∧
     WithMessagef Err.nilE f args = Err.nilE ∧ WithDetails Err.nilE ds = Err.nilE) ∧
    (WithStack e st ≠ Err.nilE ∧ Wrap e m st ≠ Err.nilE ∧
     Wrapf e f args st ≠ Err.nilE ∧ WithMessage e m ≠ Err.nilE ∧
     WithMessagef e f args ≠ Err.nilE ∧ WithDetails e ds ≠ Err.nilE) := by
  refine ⟨⟨rfl, rfl, rfl, rfl, rfl, rfl⟩, ?_⟩
  cases e with
  | nilE => exact absurd rfl h
  | fundamental m' st' =>
      simp [WithStack, Wrap, Wrapf, WithMessage, WithMessagef, WithDetails]
  | withStack c m' st' =>
      simp [WithStack, Wrap, Wrapf, WithMessage, WithMessagef, WithDetails]
  | withMessage c m' =>
      simp [WithStack, Wrap, Wrapf, WithMessage, WithMessagef, WithDetails]
  | withDetails c ds' =>
      simp [WithStack, Wrap, Wrapf, WithMessage, WithMessagef, WithDetails]
  | external m' =>
      simp [WithStack, Wrap, Wrapf, WithMessage, WithMessagef, WithDetails]

/-- Witness for C1 at the external error "x". -/
theorem wrap_family_nil_propagation_witness :
    (Err.external "x" ≠ Err.nilE) ∧
    (WithStack Err.nilE [] = Err.nilE ∧ Wrap Err.nilE "m" [] = Err.nilE ∧
     Wrapf Err.nilE "f" [] [] = Err.nilE ∧ WithMessage Err.nilE "m" = Err.nilE ∧
     WithMessagef Err.nilE "f" [] = Err.nilE ∧ WithDetails Err.nilE [] = Err.nilE) ∧
    (WithStack (Err.external "x") [] ≠ Err.nilE ∧
     Wrap (Err.external "x") "m" [] ≠ Err.nilE ∧
     Wrapf (Err.external "x") "f" [] [] ≠ Err.nilE ∧
     WithMessage (Err.external "x") "m" ≠ Err.nilE ∧
     WithMessagef (Err.external "x") "f" [] ≠ Err.nilE ∧
     WithDetails (Err.external "x") [] ≠ Err.nilE) :=
  ⟨by decide,
   (wrap_family_nil_propagation (Err.external "x") "m" "f" [] [] [] (by decide)).1,
   (wrap_family_nil_propagation (Err.external "x") "m" "f" [] [] [] (by decide)).2⟩

/-- C2: Cause is idempotent on its own result, for every error value
including nil and opaque external errors. -/
theorem cause_idempotent (e : Err) : Cause (Cause e) = Cause e := by
  induction e with
  | nilE => rfl
  | fundamental m st => rfl
  | withStack c m st ih => simpa [Cause] using ih
  | withMessage c m ih => simpa [Cause] using ih
  | withDetails c ds ih => simpa [Cause] using ih
  | external m => rfl

/-- C3: for a non-nil cause with non-empty short text s and a non-empty
message m, the short text of Wrap(cause, m) is m ++ ": " ++ s. -/
theorem wrap_short_text (c : Err) (m : String) (st : Stack) (s : String)
    (hc : c ≠ Err.nilE) (hs : errMsg c = some s) (hsne : s ≠ "") (hm : m ≠ "") :
    errMsg (Wrap c m st) = some (m ++ ": " ++ s) := by
  cases c with
  | nilE => exact absurd rfl hc
  | fundamental m' st' => simp_all [Wrap, errMsg]
  | withStack c' m' st' => simp_all [Wrap, errMsg]
  | withMessage c' m' => simp_all [Wrap, errMsg]
  | withDetails c' ds' => simp_all [Wrap, errMsg]
  | external m' => simp_all [Wrap, errMsg]

/-- Witness for C3: Wrap(external "foo", "bar") has short text "bar: foo". -/
theorem wrap_short_text_witness :
    (Err.external "foo" ≠ Err.nilE ∧ errMsg (Err.external "foo") = some "foo" ∧
     "foo" ≠ "" ∧ "bar" ≠ "") ∧
    errMsg (Wrap (Err.external "foo") "bar" []) = some ("bar" ++ ": " ++ "foo") :=
  ⟨⟨by decide, rfl, by decide, by decide⟩,
   wrap_short_text (Err.external "foo") "bar" [] "foo" (by decide) rfl
     (by decide) (by decide)⟩

/-- Size measure on error chains, used for termination of the chain walks. -/
def esize : Err → Nat
  | .nilE => 0
  | .fundamental _ _ => 1
  | .external _ => 1
  | .withStack c _ _ => esize c + 1
  | .withMessage c _ => esize c + 1
  | .withDetails c _ => esize c + 1

/-- Modelled from the spec: the generic unwrap operation used by the Chain
Flattener (the go113 Unwrap helper is not under src/).  It follows the
spec's generic unwrap predicate: nodes exposing an Unwrap method
(withMessage and withDetails in src/errors.go, withStack through its
embedded withMessage) yield their cause; every other value, including
opaque external errors, yields nil. -/
def Unwrap : Err → Err
  | .withStack c _ _ => c
  | .withMessage c _ => c
  | .withDetails c _ => c
  | _ => .nilE

/-- Modelled from the spec: extended rendering of a captured stack
(stack.Format in stack.go, not under src/).  Each frame renders as the
function name, the function separator, then file:line; frames are joined by
the stack separator. -/
def stackText (cfg : Config) (st : Stack) : String :=
  String.intercalate cfg.StackSep
    (st.map (fun f => f.fn ++ cfg.FuncSep ++ f.file ++ ":" ++ toString f.line))

/-- fundamental.ErrorLine (src/errors.go): the message if non-empty, then
the message separator when both a message and the stack are present, then
the stack when requested. -/
def fundamentalLine (cfg : Config) (m : String) (st : Stack) (stack : Bool) : String :=
  (if m = "" then "" else m) ++
  (if m ≠ "" ∧ stack then cfg.MsgSep else "") ++
  (if stack then stackText cfg st else "")

/-- withStack.ErrorLine (src/errors.go): without the stack just the own
message; with it, the message and separator when non-empty followed by the
stack text. -/
def withStackLine (cfg : Config) (m : String) (st : Stack) (stack : Bool) : String :=
  if ¬ stack then m
  else (if m = "" then "" else m ++ cfg.MsgSep) ++ stackText cfg st

/-- The append step of Lines (src/lines.go): a line is kept only when its
length is positive. -/
def consLine (line : String) (rest : List String) : List String :=
  if line.length > 0 then line :: rest else rest

/-- Lines (src/lines.go): walk the chain via the generic Unwrap; at each
node take ErrorLine for Liner values (all four package node kinds), else
the plain Error() text; skip empty contributions.  withMessage.ErrorLine
returns the own message; withDetails.ErrorLine returns the empty string. -/
def Lines (cfg : Config) (stack : Bool) (e : Err) : List String :=
  match e with
  | .nilE => []
  | .fundamental m st => consLine (fundamentalLine cfg m st stack) (Lines cfg stack Err.nilE)
  | .withStack c m st => consLine (withStackLine cfg m st stack) (Lines cfg stack c)
  | .withMessage c m => consLine m (Lines cfg stack c)
  | .withDetails c _ => consLine "" (Lines cfg stack c)
  | .external m => consLine m (Lines cfg stack Err.nilE)
termination_by esize e
decreasing_by all_goals (simp [esize]; try omega)

/-- C4: Lines(WithMessage(WithStack(New "foo"), "bar"), false) is exactly
["bar", "foo"]; the stack-only intermediate node contributes the empty
line form and is skipped. -/
theorem lines_skips_empty_contribution (cfg : Config) (st1 st2 : Stack) :
    Lines cfg false (WithMessage (WithStack (New "foo" st1) st2) "bar") =
      ["bar", "foo"] := by
  simp [New, WithStack, WithMessage, Lines, consLine, withStackLine, fundamentalLine]
  norm_num [String.length]

/-- Type-assertion discriminator for the withDetails variant
(the err.(*withDetails) assertion in errorsApi.Details, src/custom.go). -/
def isDetailsNode : Err → Bool
  | .withDetails _ _ => true
  | _ => false

/-- C5: Details returns the stored values with found=true exactly on a
withDetails node itself; every other value, including a chain whose inner
node is a withDetails, yields (nil, false) with no chain search. -/
theorem details_exact_match (c e : Err) (ds : List GoVal)
    (h : isDetailsNode e = false) :
    Details (Err.withDetails c ds) = (some ds, true) ∧
    Details e = (none, false) := by
  refine ⟨rfl, ?_⟩
  cases e with
  | nilE => rfl
  | fundamental m st => rfl
  | withStack c' m st => rfl
  | withMessage c' m => rfl
  | withDetails c' ds' => simp [isDetailsNode] at h
  | external m => rfl

/-- Witness for C5: a chain whose inner node is a withDetails still yields
the not-found result. -/
theorem details_exact_match_witness :
    (isDetailsNode (WithMessage (WithDetails (Err.external "x") [GoVal.int 1]) "m") = false) ∧
    (Details (Err.withDetails (Err.external "x") [GoVal.int 1]) = (some [GoVal.int 1], true) ∧
     Details (WithMessage (WithDetails (Err.external "x") [GoVal.int 1]) "m") = (none, false)) :=
  ⟨rfl,
   details_exact_match (Err.external "x")
     (WithMessage (WithDetails (Err.external "x") [GoVal.int 1]) "m")
     [GoVal.int 1] rfl⟩

/-- Counterexample to C6: with a non-empty own message and a cause whose
short text is empty, the joiner still appears, leaving a dangling ": "
suffix instead of just the own message. -/
theorem short_text_dangling_joiner :
    errMsg (WithMessage (Err.external "") "bar") = some "bar: " ∧
    ("bar: " : String) ≠ "bar" :=
  ⟨rfl, by decide⟩

/-- C6 amended: the joiner is omitted only when the node's own message is
empty (the result is then the cause's short text unchanged); when the own
message is non-empty, ": " and the cause's short text are always appended,
even when that text is empty.  A withDetails node contributes no message of
its own and delegates entirely. -/
theorem short_text_join_amended (c : Err) (m : String) (st : Stack)
    (ds : List GoVal) (s : String) (hc : c ≠ Err.nilE) (hs : errMsg c = some s) :
    errMsg (Err.withMessage c m) = some (if m = "" then s else m ++ ": " ++ s) ∧
    errMsg (Err.withStack c m st) = some (if m = "" then s else m ++ ": " ++ s) ∧
    errMsg (Err.withDetails c ds) = some s := by
  cases c with
  | nilE => exact absurd rfl hc
  | fundamental m' st' => simp_all [errMsg, apply_ite]
  | withStack c' m' st' => simp_all [errMsg, apply_ite]
  | withMessage c' m' => simp_all [errMsg, apply_ite]
  | withDetails c' ds' => simp_all [errMsg, apply_ite]
  | external m' => simp_all [errMsg, apply_ite]

/-- Witness for C6 amended at an external cause with text "x" and message
"m". -/
theorem short_text_join_amended_witness :
    (Err.external "x" ≠ Err.nilE ∧ errMsg (Err.external "x") = some "x") ∧
    (errMsg (Err.withMessage (Err.external "x") "m") =
       some (if "m" = "" then "x" else "m" ++ ": " ++ "x") ∧
     errMsg (Err.withStack (Err.external "x") "m" []) =
       some (if "m" = "" then "x" else "m" ++ ": " ++ "x") ∧
     errMsg (Err.withDetails (Err.external "x") []) = some "x") :=
  ⟨⟨by decide, rfl⟩,
   short_text_join_amended (Err.external "x") "m" [] [] "x" (by decide) rfl⟩

/-- Modelled from the host standard library: the escaping strconv quoting
applies to one character, restricted to the escapes relevant here; other
characters pass through unchanged. -/
def goQuoteChar (c : Char) : String :=
  if c = '"' then "\\\""
  else if c = '\\' then "\\\\"
  else if c = '\n' then "\\n"
  else if c = '\t' then "\\t"
  else if c = '\r' then "\\r"
  else String.singleton c

/-- Modelled from the host standard library: the %q rendering of a string,
its text escaped and wrapped in quotation marks. -/
def goQuote (s : String) : String :=
  "\"" ++ String.join (s.toList.map goQuoteChar) ++ "\""

/-- The Format methods of src/errors.go, as the text they write for a verb
and plus-flag.  none models a panic (Error() on a nil cause inside
withDetails).  Each arm mirrors its Go switch: a plus-flagged v renders the
extended form; a plain v falls through to s; q quotes for fundamental and
withStack but writes the plain Error() text for withMessage and
withDetails; any other verb writes nothing.  The nilE and external arms
model the host fmt behaviour for a nil operand and for an error value
without a Formatter. -/
def format (cfg : Config) : Err → Char → Bool → Option String
  | .nilE, _, _ => some "<nil>"
  | .fundamental m st, verb, plus =>
      if verb = 'v' ∧ plus then
        some ((if m = "" then "" else m ++ cfg.MsgSep) ++ stackText cfg st)
      else if verb = 'v' ∨ verb = 's' then some m
      else if verb = 'q' then some (goQuote m)
      else some ""
  | .withStack c m st, verb, plus =>
      if verb = 'v' ∧ plus then
        (if c = Err.nilE then some ""
         else (format cfg c 'v' true).map (fun t => t ++ cfg.StackSep)).map
          (fun pre => pre ++ (if m = "" then "" else m ++ cfg.StackSep) ++ stackText cfg st)
      else if verb = 'v' ∨ verb = 's' then errMsg (Err.withStack c m st)
      else if verb = 'q' then (errMsg (Err.withStack c m st)).map goQuote
      else some ""
  | .withMessage c m, verb, plus =>
      if verb = 'v' ∧ plus then
        (if c = Err.nilE then some ""
         else (format cfg c 'v' true).map (fun t => t ++ cfg.StackSep)).map
          (fun pre => pre ++ m)
      else if verb = 'v' ∨ verb = 's' ∨ verb = 'q' then errMsg (Err.withMessage c m)
      else some ""
  | .withDetails c ds, verb, plus =>
      if verb = 'v' ∧ plus then
        (format cfg c 'v' true).map (fun t => t ++ cfg.StackSep)
      else if verb = 'v' ∨ verb = 's' ∨ verb = 'q' then errMsg (Err.withDetails c ds)
      else some ""
  | .external m, verb, _ =>
      if verb = 'v' ∨ verb = 's' then some m
      else if verb = 'q' then some (goQuote m)
      else some ("%!" ++ String.singleton verb ++ "(" ++ m ++ ")")

/-- Counterexample to C7: the withMessage node produced by
WithMessage(New "foo", "bar") renders under the quoted verb as its plain
short text, not as the short text wrapped in quotation marks. -/
theorem quoted_verb_counterexample :
    format globalOptions (WithMessage (New "foo" []) "bar") 'q' false = some "bar: foo" ∧
    goQuote "bar: foo" ≠ "bar: foo" :=
  ⟨rfl, by decide⟩

/-- C7 amended: the quoted verb quotes the short text for fundamental and
withStack nodes, but withMessage and withDetails nodes write the short text
unquoted. -/
theorem quoted_verb_amended (cfg : Config) (m cm : String) (st : Stack)
    (c : Err) (ds : List GoVal) :
    format cfg (Err.fundamental m st) 'q' false = some (goQuote m) ∧
    format cfg (Err.withStack c cm st) 'q' false =
      (errMsg (Err.withStack c cm st)).map goQuote ∧
    format cfg (Err.withMessage c cm) 'q' false = errMsg (Err.withMessage c cm) ∧
    format cfg (Err.withDetails c ds) 'q' false = errMsg (Err.withDetails c ds) :=
  ⟨rfl, rfl, rfl, rfl⟩

/-- Discriminator for values of this package's four node kinds. -/
def isPkgNode : Err → Bool
  | .fundamental _ _ => true
  | .withStack _ _ _ => true
  | .withMessage _ _ => true
  | .withDetails _ _ => true
  | _ => false

/-- Counterexample to C8: under the unsupported verb d, the Format method of
a fundamental node writes nothing, not the node's Error() text. -/
theorem unsupported_verb_counterexample :
    format globalOptions (New "foo" []) 'd' false = some "" ∧
    errMsg (New "foo" []) = some "foo" ∧
    ("" : String) ≠ "foo" :=
  ⟨rfl, rfl, by decide⟩

/-- C8 amended: for every package node and every verb other than s, v and q,
the Format method writes nothing at all (empty output, never fatal). -/
theorem unsupported_verb_amended (cfg : Config) (e : Err) (verb : Char)
    (plus : Bool) (he : isPkgNode e = true)
    (hs : verb ≠ 's') (hv : verb ≠ 'v') (hq : verb ≠ 'q') :
    format cfg e verb plus = some "" := by
  cases e with
  | nilE => simp [isPkgNode] at he
  | fundamental m st => simp [format, hs, hv, hq]
  | withStack c m st => simp [format, hs, hv, hq]
  | withMessage c m => simp [format, hs, hv, hq]
  | withDetails c ds => simp [format, hs, hv, hq]
  | external m => simp [isPkgNode] at he

/-- Witness for C8 amended: verb d on a fundamental node. -/
theorem unsupported_verb_amended_witness :
    (isPkgNode (Err.fundamental "foo" []) = true ∧ ('d' : Char) ≠ 's' ∧
     ('d' : Char) ≠ 'v' ∧ ('d' : Char) ≠ 'q') ∧
    format globalOptions (Err.fundamental "foo" []) 'd' false = some "" :=
  ⟨⟨rfl, by decide, by decide, by decide⟩,
   unsupported_verb_amended globalOptions (Err.fundamental "foo" []) 'd' false
     rfl (by decide) (by decide) (by decide)⟩

/-- C9: each formatted-variant constructor equals its plain counterpart
applied to the pre-formatted string, the captured stack being the same
parameter in both. -/
theorem formatted_variants_equiv (e : Err) (f : String) (args : List GoVal)
    (st : Stack) :
    Errorf f args st = New (sprintf f args) st ∧
    Wrapf e f args st = Wrap e (sprintf f args) st ∧
    WithMessagef e f args = WithMessage e (sprintf f args) := by
  refine ⟨rfl, ?_, ?_⟩ <;> cases e <;> rfl

/-- Error values reachable through the public constructors of src/custom.go,
starting from nil and from arbitrary opaque external errors. -/
inductive Reachable : Err → Prop where
  | nil : Reachable Err.nilE
  | ext (m : String) : Reachable (Err.external m)
  | new (m : String) (st : Stack) : Reachable (New m st)
  | errorf (f : String) (args : List GoVal) (st : Stack) :
      Reachable (Errorf f args st)
  | wstack (e : Err) (st : Stack) : Reachable e → Reachable (WithStack e st)
  | wrap (e : Err) (m : String) (st : Stack) : Reachable e → Reachable (Wrap e m st)
  | wrapf (e : Err) (f : String) (args : List GoVal) (st : Stack) :
      Reachable e → Reachable (Wrapf e f args st)
  | wmsg (e : Err) (m : String) : Reachable e → Reachable (WithMessage e m)
  | wmsgf (e : Err) (f : String) (args : List GoVal) :
      Reachable e → Reachable (WithMessagef e f args)
  | wdet (e : Err) (ds : List GoVal) : Reachable e → Reachable (WithDetails e ds)

/-- WithStack on a non-nil argument builds the node directly. -/
theorem WithStack_ne (e : Err) (st : Stack) (h : e ≠ Err.nilE) :
    WithStack e st = Err.withStack e "" st := by
  cases e <;> simp_all [WithStack]

/-- Wrap on a non-nil argument builds the node directly. -/
theorem Wrap_ne (e : Err) (m : String) (st : Stack) (h : e ≠ Err.nilE) :
    Wrap e m st = Err.withStack e m st := by
  cases e <;> simp_all [Wrap]

/-- Wrapf on a non-nil argument builds the node directly. -/
theorem Wrapf_ne (e : Err) (f : String) (args : List GoVal) (st : Stack)
    (h : e ≠ Err.nilE) : Wrapf e f args st = Err.withStack e (sprintf f args) st := by
  cases e <;> simp_all [Wrapf]

/-- WithMessage on a non-nil argument builds the node directly. -/
theorem WithMessage_ne (e : Err) (m : String) (h : e ≠ Err.nilE) :
    WithMessage e m = Err.withMessage e m := by
  cases e <;> simp_all [WithMessage]

/-- WithMessagef on a non-nil argument builds the node directly. -/
theorem WithMessagef_ne (e : Err) (f : String) (args : List GoVal)
    (h : e ≠ Err.nilE) : WithMessagef e f args = Err.withMessage e (sprintf f args) := by
  cases e <;> simp_all [WithMessagef]

/-- WithDetails on a non-nil argument builds the node directly. -/
theorem WithDetails_ne (e : Err) (ds : List GoVal) (h : e ≠ Err.nilE) :
    WithDetails e ds = Err.withDetails e ds := by
  cases e <;> simp_all [WithDetails]

/-- errMsg on a withStack node with non-nil cause unfolds to the
withMessage.Error computation. -/
theorem errMsg_withStack_ne (c : Err) (m : String) (st : Stack)
    (hc : c ≠ Err.nilE) :
    errMsg (Err.withStack c m st) =
      if m = "" then errMsg c else (errMsg c).map (fun s => m ++ ": " ++ s) := by
  cases c <;> simp_all [errMsg]

/-- errMsg on a withMessage node with non-nil cause unfolds to the
withMessage.Error computation. -/
theorem errMsg_withMessage_ne (c : Err) (m : String) (hc : c ≠ Err.nilE) :
    errMsg (Err.withMessage c m) =
      if m = "" then errMsg c else (errMsg c).map (fun s => m ++ ": " ++ s) := by
  cases c <;> simp_all [errMsg]

/-- Every reachable error value is nil or has a panic-free Error(). -/
theorem reachable_errMsg_isSome (e : Err) (h : Reachable e) :
    e = Err.nilE ∨ (errMsg e).isSome = true := by
  induction h with
  | nil => exact Or.inl rfl
  | ext m => exact Or.inr rfl
  | new m st => exact Or.inr rfl
  | errorf f args st => exact Or.inr rfl
  | wstack e' st h' ih =>
      by_cases hc : e' = Err.nilE
      · subst hc; exact Or.inl rfl
      · refine Or.inr ?_
        rw [WithStack_ne e' st hc, errMsg_withStack_ne e' "" st hc, if_pos rfl]
        exact ih.resolve_left hc
  | wrap e' m st h' ih =>
      by_cases hc : e' = Err.nilE
      · subst hc; exact Or.inl rfl
      · refine Or.inr ?_
        rw [Wrap_ne e' m st hc, errMsg_withStack_ne e' m st hc]
        have hsome := ih.resolve_left hc
        split
        · exact hsome
        · simpa using hsome
  | wrapf e' f args st h' ih =>
      by_cases hc : e' = Err.nilE
      · subst hc; exact Or.inl rfl
      · refine Or.inr ?_
        rw [Wrapf_ne e' f args st hc, errMsg_withStack_ne e' (sprintf f args) st hc]
        have hsome := ih.resolve_left hc
        split
        · exact hsome
        · simpa using hsome
  | wmsg e' m h' ih =>
      by_cases hc : e' = Err.nilE
      · subst hc; exact Or.inl rfl
      · refine Or.inr ?_
        rw [WithMessage_ne e' m hc, errMsg_withMessage_ne e' m hc]
        have hsome := ih.resolve_left hc
        split
        · exact hsome
        · simpa using hsome
  | wmsgf e' f args h' ih =>
      by_cases hc : e' = Err.nilE
      · subst hc; exact Or.inl rfl
      · refine Or.inr ?_
        rw [WithMessagef_ne e' f args hc, errMsg_withMessage_ne e' (sprintf f args) hc]
        have hsome := ih.resolve_left hc
        split
        · exact hsome
        · simpa using hsome
  | wdet e' ds h' ih =>
      by_cases hc : e' = Err.nilE
      · subst hc; exact Or.inl rfl
      · refine Or.inr ?_
        rw [WithDetails_ne e' ds hc]
        simpa [errMsg] using ih.resolve_left hc

/-- Every reachable non-terminal node carries a non-nil cause. -/
theorem reachable_cause_ne_nil (e : Err) (h : Reachable e) :
    (∀ c m st, e = Err.withStack c m st → c ≠ Err.nilE) ∧
    (∀ c m, e = Err.withMessage c m → c ≠ Err.nilE) ∧
    (∀ c ds, e = Err.withDetails c ds → c ≠ Err.nilE) := by
  induction h with
  | nil =>
      exact ⟨fun c m st heq => by simp at heq, fun c m heq => by simp at heq,
             fun c ds heq => by simp at heq⟩
  | ext m =>
      exact ⟨fun c m' st heq => by simp [Err.external] at heq,
             fun c m' heq => by simp at heq, fun c ds heq => by simp at heq⟩
  | new m st =>
      exact ⟨fun c m' st' heq => by simp [New] at heq,
             fun c m' heq => by simp [New] at heq,
             fun c ds heq => by simp [New] at heq⟩
  | errorf f args st =>
      exact ⟨fun c m' st' heq => by simp [Errorf] at heq,
             fun c m' heq => by simp [Errorf] at heq,
             fun c ds heq => by simp [Errorf] at heq⟩
  | wstack e' st h' ih =>
      by_cases hc : e' = Err.nilE
      · subst hc
        exact ⟨fun c m st' heq => by simp [WithStack] at heq,
               fun c m heq => by simp [WithStack] at heq,
               fun c ds heq => by simp [WithStack] at heq⟩
      · rw [WithStack_ne e' st hc]
        refine ⟨fun c m st' heq => ?_, fun c m heq => by simp at heq,
                fun c ds heq => by simp at heq⟩
        injection heq with h1 h2 h3
        exact h1 ▸ hc
  | wrap e' m st h' ih =>
      by_cases hc : e' = Err.nilE
      · subst hc
        exact ⟨fun c m' st' heq => by simp [Wrap] at heq,
               fun c m' heq => by simp [Wrap] at heq,
               fun c ds heq => by simp [Wrap] at heq⟩
      · rw [Wrap_ne e' m st hc]
        refine ⟨fun c m' st' heq => ?_, fun c m' heq => by simp at heq,
                fun c ds heq => by simp at heq⟩
        injection heq with h1 h2 h3
        exact h1 ▸ hc
  | wrapf e' f args st h' ih =>
      by_cases hc : e' = Err.nilE
      · subst hc
        exact ⟨fun c m' st' heq => by simp [Wrapf] at heq,
               fun c m' heq => by simp [Wrapf] at heq,
               fun c ds heq => by simp [Wrapf] at heq⟩
      · rw [Wrapf_ne e' f args st hc]
        refine ⟨fun c m' st' heq => ?_, fun c m' heq => by simp at heq,
                fun c ds heq => by simp at heq⟩
        injection heq with h1 h2 h3
        exact h1 ▸ hc
  | wmsg e' m h' ih =>
      by_cases hc : e' = Err.nilE
      · subst hc
        exact ⟨fun c m' st' heq => by simp [WithMessage] at heq,
               fun c m' heq => by simp [WithMessage] at heq,
               fun c ds heq => by simp [WithMessage] at heq⟩
      · rw [WithMessage_ne e' m hc]
        refine ⟨fun c m' st' heq => by simp at heq, fun c m' heq => ?_,
                fun c ds heq => by simp at heq⟩
        injection heq with h1 h2
        exact h1 ▸ hc
  | wmsgf e' f args h' ih =>
      by_cases hc : e' = Err.nilE
      · subst hc
        exact ⟨fun c m' st' heq => by simp [WithMessagef] at heq,
               fun c m' heq => by simp [WithMessagef] at heq,
               fun c ds heq => by simp [WithMessagef] at heq⟩
      · rw [WithMessagef_ne e' f args hc]
        refine ⟨fun c m' st' heq => by simp at heq, fun c m' heq => ?_,
                fun c ds heq => by simp at heq⟩
        injection heq with h1 h2
        exact h1 ▸ hc
  | wdet e' ds h' ih =>
      by_cases hc : e' = Err.nilE
      · subst hc
        exact ⟨fun c m' st' heq => by simp [WithDetails] at heq,
               fun c m' heq => by simp [WithDetails] at heq,
               fun c ds' heq => by simp [WithDetails] at heq⟩
      · rw [WithDetails_ne e' ds hc]
        refine ⟨fun c m' st' heq => by simp at heq, fun c m' heq => by simp at heq,
                fun c ds' heq => ?_⟩
        injection heq with h1 h2
        exact h1 ▸ hc

/-- C10: every non-terminal node reachable through the public constructors
holds a non-nil cause, and consequently Error() — including the
unconditional delegation in withDetails.Error — never dereferences a nil
cause on library-constructed values. -/
theorem constructors_guard_nil (e : Err) (h : Reachable e) :
    (∀ c m st, e = Err.withStack c m st → c ≠ Err.nilE) ∧
    (∀ c m, e = Err.withMessage c m → c ≠ Err.nilE) ∧
    (∀ c ds, e = Err.withDetails c ds → c ≠ Err.nilE) ∧
    (e ≠ Err.nilE → (errMsg e).isSome = true) := by
  obtain ⟨h1, h2, h3⟩ := reachable_cause_ne_nil e h
  exact ⟨h1, h2, h3, fun hne => (reachable_errMsg_isSome e h).resolve_left hne⟩

/-- Witness for C10: the withDetails node over an external cause. -/
theorem constructors_guard_nil_witness :
    Reachable (WithDetails (Err.external "x") []) ∧
    (errMsg (WithDetails (Err.external "x") [])).isSome = true :=
  ⟨Reachable.wdet (Err.external "x") [] (Reachable.ext "x"),
   (constructors_guard_nil (WithDetails (Err.external "x") [])
      (Reachable.wdet (Err.external "x") [] (Reachable.ext "x"))).2.2.2 (by decide)⟩

end Errors
